import Mathlib

/-!
Verification of the Markdown-to-DOCX converter (`misc/word.py`).

The Python source is shallowly embedded: pure string manipulation is
translated to functions over `String` / `List Char`, the mutable
`python-docx` document is an explicit record that is threaded through the
post-processing steps, the filesystem is a list of path strings, and code
that can raise returns `Except String _`.  Floating point sizes (margins,
line spacing, EMU ratios) are modelled as exact rationals.
-/

namespace Word

/-! ## Python string helpers -/

/-- Characters stripped by Python's `str.strip()` with no arguments. -/
def pyWhitespace (c : Char) : Bool :=
  c = ' ' || c = '\t' || c = '\n' || c = '\r' || c = '\x0b' || c = '\x0c'

/-- Remove trailing Python whitespace from a character list. -/
def dropTrailingWs (l : List Char) : List Char :=
  (l.reverse.dropWhile pyWhitespace).reverse

/-- Python `str.strip()`: remove leading and trailing whitespace. -/
def stripChars (l : List Char) : List Char :=
  dropTrailingWs (l.dropWhile pyWhitespace)

/-- Python `str.strip()` on a `String`. -/
def pyStrip (s : String) : String :=
  ⟨stripChars s.data⟩

/-- Substring test, Python's `pat in s`. -/
def containsSub (pat : List Char) : List Char → Bool
  | [] => pat.isEmpty
  | c :: rest => pat.isPrefixOf (c :: rest) || containsSub pat rest

/-- Count non-overlapping occurrences of `pat` in `s` left to right,
Python's `s.count(pat)` (for a non-empty pattern). -/
def countSub (pat : List Char) : List Char → Nat
  | [] => 0
  | c :: rest =>
    if pat ≠ [] ∧ pat.isPrefixOf (c :: rest) then
      countSub pat ((c :: rest).drop pat.length) + 1
    else
      countSub pat rest
  termination_by l => l.length
  decreasing_by
    · simp only [List.length_drop, List.length_cons]
      rename_i hp
      have : 0 < pat.length := List.length_pos.mpr hp.1
      omega
    · simp

/-! ## The image regex `IMAGE_PATTERN`

`IMAGE_PATTERN.findall` and `IMAGE_PATTERN.sub` scan the content left to
right for non-overlapping matches of the pattern `!` `[` group `]` `(`
group `)`.  A match at a position is `![`, then a minimal newline-free run
of characters up to a `](`, then a minimal newline-free run up to a `)`.
(Backtracking past the first `](` can never turn a failed path scan into a
success: the newline or end of input that kills the path scan also
precedes every later candidate `)`, so committing to the first `](` is
faithful.) -/

/-- Scan the first capture group: the minimal newline-free prefix
terminated by `](`.  Returns the group and the rest of the input after
the `](`. -/
def scanAlt : List Char → Option (List Char × List Char)
  | [] => none
  | c :: rest =>
    if c = '\n' then none
    else if c = ']' ∧ rest.head? = some '(' then some ([], rest.tail)
    else
      match scanAlt rest with
      | some (a, r) => some (c :: a, r)
      | none => none

/-- Scan the second capture group: the minimal newline-free prefix
terminated by `)`. -/
def scanPath : List Char → Option (List Char × List Char)
  | [] => none
  | c :: rest =>
    if c = ')' then some ([], rest)
    else if c = '\n' then none
    else
      match scanPath rest with
      | some (p, r) => some (c :: p, r)
      | none => none

/-- Try to match `IMAGE_PATTERN` at the head of the input, returning the
two capture groups and the remaining input. -/
def tryMatch : List Char → Option (List Char × List Char × List Char)
  | '!' :: '[' :: rest =>
    match scanAlt rest with
    | some (alt, r2) =>
      match scanPath r2 with
      | some (path, r3) => some (alt, path, r3)
      | none => none
    | none => none
  | _ => none

theorem scanAlt_eq : ∀ {l a r : List Char},
    scanAlt l = some (a, r) → l = a ++ ']' :: '(' :: r := by
  intro l
  induction l with
  | nil => intro a r h; simp [scanAlt] at h
  | cons c rest ih =>
    intro a r h
    rw [scanAlt] at h
    split at h
    · exact absurd h (by simp)
    · split at h
      · rename_i hc
        obtain ⟨hc1, hc2⟩ := hc
        simp only [Option.some.injEq, Prod.mk.injEq] at h
        obtain ⟨ha, hr⟩ := h
        subst ha; subst hr; subst hc1
        cases rest with
        | nil => simp at hc2
        | cons x xs =>
          simp only [List.head?_cons, Option.some.injEq] at hc2
          subst hc2; simp
      · split at h
        · rename_i a0 r0 heq
          simp only [Option.some.injEq, Prod.mk.injEq] at h
          obtain ⟨ha, hr⟩ := h
          subst ha; subst hr
          simpa using congrArg (c :: ·) (ih heq)
        · exact absurd h (by simp)

theorem scanPath_eq : ∀ {l p r : List Char},
    scanPath l = some (p, r) → l = p ++ ')' :: r := by
  intro l
  induction l with
  | nil => intro p r h; simp [scanPath] at h
  | cons c rest ih =>
    intro p r h
    rw [scanPath] at h
    split at h
    · rename_i hc
      simp only [Option.some.injEq, Prod.mk.injEq] at h
      obtain ⟨hp, hr⟩ := h
      subst hp; subst hr; subst hc; simp
    · split at h
      · exact absurd h (by simp)
      · split at h
        · rename_i p0 r0 heq
          simp only [Option.some.injEq, Prod.mk.injEq] at h
          obtain ⟨hp, hr⟩ := h
          subst hp; subst hr
          simpa using congrArg (c :: ·) (ih heq)
        · exact absurd h (by simp)

theorem tryMatch_eq {l alt path r : List Char}
    (h : tryMatch l = some (alt, path, r)) :
    l = '!' :: '[' :: (alt ++ ']' :: '(' :: (path ++ ')' :: r)) := by
  rw [tryMatch.eq_def] at h
  split at h
  · rename_i rest
    split at h
    · rename_i a r2 halt
      split at h
      · rename_i p r3 hpath
        simp only [Option.some.injEq, Prod.mk.injEq] at h
        obtain ⟨h1, h2, h3⟩ := h
        subst h1; subst h2; subst h3
        rw [scanAlt_eq halt, scanPath_eq hpath]
      · exact absurd h (by simp)
    · exact absurd h (by simp)
  · exact absurd h (by simp)

theorem tryMatch_length {l alt path r : List Char}
    (h : tryMatch l = some (alt, path, r)) : r.length < l.length := by
  have := tryMatch_eq h
  subst this
  simp only [List.length_cons, List.length_append]
  omega

/-- One token of the scanned content: a literal character (not part of
any match) or one match of `IMAGE_PATTERN` with its two capture groups. -/
inductive MdTok where
  | lit (c : Char)
  | img (alt path : List Char)
  deriving DecidableEq, Repr

/-- Recognizer for match tokens. -/
def MdTok.isImg : MdTok → Bool
  | .img _ _ => true
  | .lit _ => false

/-- The left-to-right non-overlapping scan shared by `re.findall` and
`re.sub`: at each position try to match, on success continue after the
match, on failure emit one literal character and retry at the next
position. -/
def tokenize (l : List Char) : List MdTok :=
  match h : tryMatch l with
  | some (alt, path, r) => .img alt path :: tokenize r
  | none =>
    match l with
    | [] => []
    | c :: rest => .lit c :: tokenize rest
termination_by l.length
decreasing_by
  · exact tryMatch_length h
  · simp

/-- The source text of a token: a match token renders back to the exact
matched substring `![alt](path)`. -/
def renderOrig : MdTok → List Char
  | .lit c => [c]
  | .img alt path => '!' :: '[' :: (alt ++ ']' :: '(' :: (path ++ [')']))

/-- The characters of the replacement marker `[IMAGE_PLACEHOLDER]`. -/
def markerChars : List Char := "[IMAGE_PLACEHOLDER]".data

/-- The `re.sub` rendering of a token: matches become the placeholder. -/
def renderSub : MdTok → List Char
  | .lit c => [c]
  | .img _ _ => markerChars

/-- The original matched text of a match token (`none` for literals). -/
def imgOrig : MdTok → Option (List Char)
  | .img alt path => some (renderOrig (.img alt path))
  | .lit _ => none

/-- Concatenate the renderings of a token list. -/
def joinRender (f : MdTok → List Char) (toks : List MdTok) : List Char :=
  (toks.map f).flatten

/-- Model of `IMAGE_PATTERN.findall(content)`: the list of `(alt_text, path)`
capture-group pairs, in document order. -/
def findallImages (content : String) : List (String × String) :=
  (tokenize content.data).filterMap fun t =>
    match t with
    | .img alt path => some (⟨alt⟩, ⟨path⟩)
    | .lit _ => none

/-- Model of `_remove_image_references`: replace every match of `IMAGE_PATTERN`
with `[IMAGE_PLACEHOLDER]`. -/
def removeImageReferences (content : String) : String :=
  ⟨joinRender renderSub (tokenize content.data)⟩

/-- The path normalization inside `_extract_image_references`:
`path.strip()`, then drop a leading `img/` prefix if present. -/
def normPath (path : String) : String :=
  let s := stripChars path.data
  if "img/".data.isPrefixOf s then ⟨s.drop 4⟩ else ⟨s⟩

/-- One stored image reference (the dict built by
`_extract_image_references`). -/
structure ImageRef where
  alt_text : String
  path : String
  original_markdown : String
  deriving DecidableEq, Repr

/-- Model of `_extract_image_references`: for each match store the alt text, the
normalized path, and a markup string rebuilt from the two. -/
def extractImageReferences (content : String) : List ImageRef :=
  (findallImages content).map fun ap =>
    let path := normPath ap.2
    { alt_text := ap.1
      path := path
      original_markdown := "![" ++ ap.1 ++ "](" ++ path ++ ")" }

/-- Interleave segments and separators:
`altJoin [s0, s1, ..., sn] [m0, ..., m(n-1)] = s0 ++ m0 ++ s1 ++ ... ++ sn`. -/
def altJoin : List (List Char) → List (List Char) → List Char
  | [], _ => []
  | s :: ss, [] => s ++ altJoin ss []
  | s :: ss, m :: ms => s ++ m ++ altJoin ss ms

/-- Python `str.startswith(pre)`. -/
def pyStartsWith (pre s : String) : Bool :=
  pre.data.isPrefixOf s.data

/-- Python `s[n:]`, slicing by character count. -/
def pyDrop (n : Nat) (s : String) : String :=
  ⟨s.data.drop n⟩

/-- Python `content.split(sep)` for a single-character separator, Python
semantics (`"".split(c) = [""]`, trailing separator yields a final empty
field). -/
def splitOnChar (sep : Char) : List Char → List (List Char)
  | [] => [[]]
  | c :: rest =>
    match splitOnChar sep rest with
    | [] => [[c]]
    | s :: ss => if c = sep then [] :: s :: ss else (c :: s) :: ss

/-- Python `content.split('\n')`. -/
def pySplitLines (content : String) : List String :=
  (splitOnChar '\n' content.data).map fun l => ⟨l⟩

/-- Loop body of `_extract_title_from_markdown`: return `line[2:].strip()`
for the first line starting with `"# "`. -/
def titleLoop : List String → String
  | [] => "Untitled Document"
  | line :: rest =>
    if pyStartsWith "# " line then pyStrip (pyDrop 2 line) else titleLoop rest

/-- Model of `_extract_title_from_markdown`: split on newlines and scan for the
first H1 heading. -/
def extractTitleFromMarkdown (content : String) : String :=
  titleLoop (pySplitLines content)

/-! ## Image resizing (`_insert_single_image`, size adjustment step) -/

/-- The constant `MAX_IMAGE_WIDTH = Inches(6)`, in EMU (1 inch = 914400 EMU). -/
def MAX_IMAGE_WIDTH : ℕ := 6 * 914400

/-- The size-adjustment step of `_insert_single_image`: pictures wider than
`MAX_IMAGE_WIDTH` are shrunk to that width with the height scaled by the
original aspect ratio and truncated to an integer (`int(width * aspect)`). -/
def resizeImage (w h : ℕ) : ℕ × ℕ :=
  if MAX_IMAGE_WIDTH < w then
    (MAX_IMAGE_WIDTH, (⌊(MAX_IMAGE_WIDTH * h : ℚ) / (w : ℚ)⌋).toNat)
  else
    (w, h)

/-! ## Document configuration (`DocumentConfig`) -/

/-- Paper sizes supported by the converter. -/
inductive PaperSize where
  | letter
  | legal
  | a4
  deriving DecidableEq, Repr

/-- The attribute record held by a constructed `DocumentConfig`
(the fields `_validate` inspects, plus those the post-processor reads). -/
structure DocumentConfig where
  paper_size : PaperSize
  heading_colors : List (Int × List Int)
  footer_text : List (String × String)
  font_name : String
  base_font_size : Int
  margins : ℚ × ℚ × ℚ × ℚ
  line_spacing : ℚ
  language : String
  center_title : Bool
  deriving DecidableEq, Repr

/-- Default heading colors installed when `heading_colors` is falsy. -/
def defaultHeadingColors : List (Int × List Int) :=
  [(1, [37, 150, 190]), (2, [37, 150, 190]), (3, [37, 150, 190])]

/-- Default footer text installed when `footer_text` is falsy. -/
def defaultFooterText : List (String × String) :=
  [("odd", "Page"), ("even", "Page")]

/-- One RGB entry of `heading_colors` is well formed: a 3-tuple with each
component in `0..255`. -/
def validColor (color : List Int) : Prop :=
  color.length = 3 ∧ ∀ c ∈ color, 0 ≤ c ∧ c ≤ 255

instance (color : List Int) : Decidable (validColor color) := by
  unfold validColor; infer_instance

/-- Model of `DocumentConfig._validate`, raising `ValueError` as `Except.error`.
Checks run in source order: font size, margins, line spacing, heading
colors, footer keys. -/
def validateConfig (cfg : DocumentConfig) : Except String Unit :=
  if cfg.base_font_size ≤ 0 then
    .error "Base font size must be positive"
  else if cfg.margins.1 < 0 ∨ cfg.margins.2.1 < 0 ∨ cfg.margins.2.2.1 < 0 ∨
      cfg.margins.2.2.2 < 0 then
    .error "Margins must be non-negative"
  else if cfg.line_spacing ≤ 0 then
    .error "Line spacing must be positive"
  else if ¬ (∀ entry ∈ cfg.heading_colors, validColor entry.2) then
    .error "Color must be RGB tuple with values 0-255"
  else if ¬ ((cfg.footer_text.lookup "odd").isSome ∧
      (cfg.footer_text.lookup "even").isSome) then
    .error "footer_text must be a dict with odd and even keys"
  else
    .ok ()

/-- Model of `DocumentConfig.__init__`: install defaults for falsy `heading_colors`
and `footer_text` (Python's `x or default` replaces both `None` and the
empty dict), store the attributes, then run `_validate`. -/
def mkDocumentConfig
    (paper_size : PaperSize)
    (heading_colors : Option (List (Int × List Int)))
    (footer_text : Option (List (String × String)))
    (font_name : String)
    (base_font_size : Int)
    (margins : ℚ × ℚ × ℚ × ℚ)
    (line_spacing : ℚ)
    (language : String)
    (center_title : Bool) : Except String DocumentConfig :=
  let hc := match heading_colors with
    | none => defaultHeadingColors
    | some l => if l = [] then defaultHeadingColors else l
  let ft := match footer_text with
    | none => defaultFooterText
    | some l => if l = [] then defaultFooterText else l
  let cfg : DocumentConfig :=
    { paper_size := paper_size
      heading_colors := hc
      footer_text := ft
      font_name := font_name
      base_font_size := base_font_size
      margins := margins
      line_spacing := line_spacing
      language := language
      center_title := center_title }
  match validateConfig cfg with
  | .ok _ => .ok cfg
  | .error e => .error e

/-- The default configuration `DocumentConfig()` used throughout tests. -/
def defaultConfig : DocumentConfig :=
  { paper_size := .letter
    heading_colors := defaultHeadingColors
    footer_text := defaultFooterText
    font_name := "Arial"
    base_font_size := 12
    margins := (2, 2, 2, 2)
    line_spacing := 1
    language := "en-US"
    center_title := true }

/-! ## Table cell borders (`_set_cell_borders`) -/

/-- One border edge (`w:val`, `w:sz`, `w:space`, `w:color` attributes). -/
structure BorderEdge where
  val : String
  sz : String
  space : String
  color : String
  deriving DecidableEq, Repr

/-- A child element of a cell's `w:tcPr` node. -/
inductive TcChild where
  | tcBorders (edges : List (String × BorderEdge))
  | other (name : String)
  deriving DecidableEq, Repr

/-- Recognizer for the `w:tcBorders` child. -/
def TcChild.isBorders : TcChild → Bool
  | .tcBorders _ => true
  | .other _ => false

/-- A table cell, reduced to its `w:tcPr` element (`none` when the cell has
no `tcPr` yet; `get_or_add_tcPr` creates an empty one). -/
structure Cell where
  tcPr : Option (List TcChild)
  deriving DecidableEq, Repr

/-- The four single-line edges appended by `_set_cell_borders`. -/
def singleBorderEdges : List (String × BorderEdge) :=
  [("top", ⟨"single", "4", "0", "auto"⟩),
   ("left", ⟨"single", "4", "0", "auto"⟩),
   ("bottom", ⟨"single", "4", "0", "auto"⟩),
   ("right", ⟨"single", "4", "0", "auto"⟩)]

/-- Model of `_set_cell_borders`: ensure a `tcPr` exists, return unchanged if it
already contains a `w:tcBorders` element, otherwise append one with single
borders on all four sides. -/
def setCellBorders (cell : Cell) : Cell :=
  let children := cell.tcPr.getD []
  if children.any TcChild.isBorders then
    ⟨some children⟩
  else
    ⟨some (children ++ [TcChild.tcBorders singleBorderEdges])⟩


/-! ## The document model

The mutable `python-docx` `Document` is embedded as an explicit record.
Run-level font mutations inside table cells and the footnote XML part are
outside the model; every style lookup that can raise `KeyError` is
modelled exactly. -/

/-- Paragraph alignment (`WD_ALIGN_PARAGRAPH`); `unset` is Python `None`. -/
inductive Alignment where
  | unset
  | left
  | center
  | right
  deriving DecidableEq, Repr

/-- A paragraph: its text, the name of its style, its alignment, its
paragraph-format spacing (`none` = inherited), and the sizes of embedded
pictures.  Setting `para.text` in `python-docx` replaces all runs, so the
model clears `pictures` whenever `text` is assigned. -/
structure Para where
  text : String
  style_name : String
  alignment : Alignment
  space_before : Option ℚ
  space_after : Option ℚ
  line_spacing : Option ℚ
  pictures : List (ℕ × ℕ)
  deriving DecidableEq, Repr

/-- The attributes of a named document style that the converter mutates. -/
structure StyleAttrs where
  font_name : String
  font_size : ℚ
  bold : Bool
  italic : Bool
  color : Option (List Int)
  superscript : Bool
  space_before : ℚ
  space_after : ℚ
  line_spacing : ℚ
  deriving DecidableEq, Repr

/-- The document: named styles, paragraphs, tables (rows of cells),
language, page geometry and the two footers. -/
structure Doc where
  styles : List (String × StyleAttrs)
  paragraphs : List Para
  tables : List (List (List Cell))
  language : String
  page_width : ℚ
  page_height : ℚ
  margins_cm : ℚ × ℚ × ℚ × ℚ
  footer_odd : Option String
  footer_even : Option String
  deriving DecidableEq, Repr

/-- Lookup `doc.styles[name]` as a partial lookup (`none` models `KeyError`). -/
def lookupStyle (doc : Doc) (name : String) : Option StyleAttrs :=
  doc.styles.lookup name

/-- Mutate the style with the given name in place, if present. -/
def updateStyle (doc : Doc) (name : String) (f : StyleAttrs → StyleAttrs) : Doc :=
  { doc with styles := doc.styles.map fun ns => if ns.1 = name then (ns.1, f ns.2) else ns }

/-- One entry of the `styles_config` dicts fed to
`_apply_style_configurations`. -/
structure StyleConfig where
  font_size : ℚ
  font_name : String
  bold : Bool
  space_before : ℚ
  space_after : ℚ
  line_spacing : ℚ
  color : Option (List Int)
  italic : Bool
  deriving DecidableEq, Repr

/-- Apply one `StyleConfig` to a style, as the body of the `try` block in
`_apply_style_configurations` does (italic only set when truthy, color
only when present). -/
def applyStyleConfig (c : StyleConfig) (s : StyleAttrs) : StyleAttrs :=
  { s with
    font_name := c.font_name
    font_size := c.font_size
    bold := c.bold
    italic := if c.italic then true else s.italic
    color := match c.color with
      | some col => some col
      | none => s.color
    space_before := c.space_before
    space_after := c.space_after
    line_spacing := c.line_spacing }

/-- Model of `_apply_style_configurations`: each entry looks its style up inside a
`try`; a missing style is skipped (`KeyError` caught, warning logged). -/
def applyStyleConfigurations (doc : Doc) (cfgs : List (String × StyleConfig)) : Doc :=
  cfgs.foldl
    (fun d nc =>
      match lookupStyle d nc.1 with
      | some _ => updateStyle d nc.1 (applyStyleConfig nc.2)
      | none => d)
    doc

/-- Python `heading_colors.get(level, (0, 0, 0))`. -/
def headingColor (cfg : DocumentConfig) (level : Int) : List Int :=
  (cfg.heading_colors.lookup level).getD [0, 0, 0]

/-- Model of `_configure_standard_styles`: Normal and Title. -/
def configureStandardStyles (cfg : DocumentConfig) (doc : Doc) : Doc :=
  applyStyleConfigurations doc
    [("Normal",
      { font_size := (cfg.base_font_size : ℚ)
        font_name := cfg.font_name
        bold := false
        space_before := 0
        space_after := 0
        line_spacing := cfg.line_spacing
        color := none
        italic := false }),
     ("Title",
      { font_size := 24
        font_name := cfg.font_name
        bold := true
        space_before := 12
        space_after := 12
        line_spacing := 1
        color := none
        italic := false })]

/-- Model of `_configure_heading_styles`: Heading 1-3 with colors, Heading 3 italic. -/
def configureHeadingStyles (cfg : DocumentConfig) (doc : Doc) : Doc :=
  applyStyleConfigurations doc
    [("Heading 1",
      { font_size := 18
        font_name := cfg.font_name
        bold := true
        space_before := 18
        space_after := 12
        line_spacing := 1
        color := some (headingColor cfg 1)
        italic := false }),
     ("Heading 2",
      { font_size := 16
        font_name := cfg.font_name
        bold := true
        space_before := 16
        space_after := 10
        line_spacing := 1
        color := some (headingColor cfg 2)
        italic := false }),
     ("Heading 3",
      { font_size := 14
        font_name := cfg.font_name
        bold := true
        space_before := 14
        space_after := 8
        line_spacing := 1
        color := some (headingColor cfg 3)
        italic := true })]

/-- Model of `_set_document_language`: install the configured language in the
document defaults. -/
def setDocumentLanguage (cfg : DocumentConfig) (doc : Doc) : Doc :=
  { doc with language := cfg.language }

/-- Model of `_configure_section_properties`: page size from the paper size, then
the configured margins. -/
def configureSectionProperties (cfg : DocumentConfig) (doc : Doc) : Doc :=
  let wh : ℚ × ℚ :=
    match cfg.paper_size with
    | .letter => (85 / 10, 11)
    | .legal => (85 / 10, 14)
    | .a4 => (827 / 100, 1169 / 100)
  { doc with page_width := wh.1, page_height := wh.2, margins_cm := cfg.margins }

/-- Model of `_apply_global_styles`: language, standard styles, heading styles,
section properties, in that order. -/
def applyGlobalStyles (cfg : DocumentConfig) (doc : Doc) : Doc :=
  configureSectionProperties cfg
    (configureHeadingStyles cfg
      (configureStandardStyles cfg
        (setDocumentLanguage cfg doc)))

/-- Restyle the (up to two) author/date paragraphs after the title: text
is cleared and re-added, and they are centered when the title is. -/
def styleFollowing (cfg : DocumentConfig) : Nat → List Para → List Para
  | _, [] => []
  | 0, ps => ps
  | k + 1, p :: ps =>
    { p with
      pictures := []
      alignment := if cfg.center_title then .center else p.alignment }
      :: styleFollowing cfg k ps

/-- The loop of `_style_main_title`: the first paragraph whose text equals
the document title is restyled with `doc.styles['Title']` — a lookup NOT
wrapped in `try`, so a missing Title style raises `KeyError` — and the
next two paragraphs are restyled; the loop then stops. -/
def styleMainTitleLoop (cfg : DocumentConfig) (styles : List (String × StyleAttrs))
    (title : String) : List Para → Except String (List Para)
  | [] => .ok []
  | p :: rest =>
    if p.text = title then
      match styles.lookup "Title" with
      | none => .error "KeyError: no style with name Title"
      | some _ =>
        let p' : Para :=
          { p with
            style_name := "Title"
            text := title
            pictures := []
            alignment := if cfg.center_title then .center else p.alignment }
        .ok (p' :: styleFollowing cfg 2 rest)
    else
      match styleMainTitleLoop cfg styles title rest with
      | .ok ps => .ok (p :: ps)
      | .error e => .error e

/-- Model of `_style_main_title` on the whole document. -/
def styleMainTitle (cfg : DocumentConfig) (doc : Doc) (title : String) :
    Except String Doc :=
  match styleMainTitleLoop cfg doc.styles title doc.paragraphs with
  | .ok ps => .ok { doc with paragraphs := ps }
  | .error e => .error e

/-! ## Image insertion and paragraph processing -/

/-- Python `'[IMAGE_PLACEHOLDER]' in para.text`. -/
def hasMarker (p : Para) : Bool :=
  containsSub markerChars p.text.data

/-- Model of `_format_normal_paragraph`: paragraph spacing and line spacing (run
font and language mutations are outside the paragraph model). -/
def formatNormalParagraph (cfg : DocumentConfig) (p : Para) : Para :=
  { p with
    space_before := some 6
    space_after := some 6
    line_spacing := some cfg.line_spacing }

/-- Model of `_insert_single_image`: pop the front image reference (an
`IndexError` if the list is empty — the caller guards this), resolve it
under `img_dir`, and embed it; a missing file or a failing
`add_picture` (the `embedFails` oracle) replaces the paragraph text with
a placeholder instead of raising. -/
def insertSingleImage (para : Para) (refs : List ImageRef) (img_dir : String)
    (files : List (String × ℕ × ℕ)) (embedFails : String → Bool) :
    Except String (Para × List ImageRef) :=
  match refs with
  | [] => .error "IndexError: pop from empty list"
  | img_ref :: rest =>
    let image_path := img_dir ++ "/" ++ img_ref.path
    match files.lookup image_path with
    | some wh =>
      if embedFails image_path then
        .ok ({ para with text := "[Image: " ++ img_ref.alt_text ++ "]", pictures := [] },
          rest)
      else
        .ok ({ para with
          text := ""
          pictures := [resizeImage wh.1 wh.2]
          alignment := .center }, rest)
    | none =>
      .ok ({ para with
        text := "[Image not found: " ++ img_ref.alt_text ++ "]"
        pictures := [] }, rest)

/-- Model of `_process_paragraphs_and_images`: walk the paragraphs; a paragraph
containing the placeholder consumes one reference from the front while
references remain; Title/Heading paragraphs are skipped; Normal
paragraphs are reformatted. -/
def processParagraphsAndImages (cfg : DocumentConfig) (img_dir : String)
    (files : List (String × ℕ × ℕ)) (embedFails : String → Bool) :
    List Para → List ImageRef → Except String (List Para × List ImageRef)
  | [], refs => .ok ([], refs)
  | para :: rest, refs =>
    if hasMarker para ∧ refs ≠ [] then
      match insertSingleImage para refs img_dir files embedFails with
      | .ok (p', refs') =>
        match processParagraphsAndImages cfg img_dir files embedFails rest refs' with
        | .ok (ps, refsF) => .ok (p' :: ps, refsF)
        | .error e => .error e
      | .error e => .error e
    else
      let para' :=
        if para.style_name = "Title" ∨ para.style_name = "Heading 1" ∨
            para.style_name = "Heading 2" ∨ para.style_name = "Heading 3" then
          para
        else if para.style_name = "Normal" then
          formatNormalParagraph cfg para
        else
          para
      match processParagraphsAndImages cfg img_dir files embedFails rest refs with
      | .ok (ps, refsF) => .ok (para' :: ps, refsF)
      | .error e => .error e

/-! ## Tables, footnotes, footers, and the post-processing pipeline -/

/-- Model of `_process_tables`: the border-setting effect on every cell (the first
pass over the header row only mutates run fonts, which are outside the
cell model; borders are set once per cell by the second pass). -/
def processTables (tables : List (List (List Cell))) : List (List (List Cell)) :=
  tables.map fun table => table.map fun row => row.map setCellBorders

/-- Model of `_process_footnotes`: both style lookups happen inside one `try`
catching `KeyError`, so a missing style aborts the rest of the block but
keeps the mutations already made. -/
def processFootnotes (cfg : DocumentConfig) (doc : Doc) : Doc :=
  match lookupStyle doc "Footnote Text" with
  | none => doc
  | some _ =>
    let doc1 := updateStyle doc "Footnote Text" fun s =>
      { s with
        font_name := cfg.font_name
        font_size := 10
        space_before := 0
        space_after := 0
        line_spacing := 1 }
    match lookupStyle doc1 "Footnote Reference" with
    | none => doc1
    | some _ =>
      updateStyle doc1 "Footnote Reference" fun s =>
        { s with font_name := cfg.font_name, font_size := 10, superscript := true }

/-- Model of `_setup_footers`: build the odd/even footers from
`config.footer_text['odd']` and `['even']` (a `KeyError` if absent;
construction-time validation guarantees both keys). -/
def setupFooters (cfg : DocumentConfig) (doc : Doc) : Except String Doc :=
  match cfg.footer_text.lookup "odd", cfg.footer_text.lookup "even" with
  | some o, some e =>
    .ok { doc with
      footer_odd := some (o ++ " | PAGE")
      footer_even := some ("PAGE | " ++ e) }
  | _, _ => .error "KeyError: footer_text key missing"

/-- Model of `_post_process_document`: global styles, title styling, paragraph and
image processing, tables, footnotes, footers, save. -/
def postProcessDocument (cfg : DocumentConfig) (doc : Doc) (document_title : String)
    (image_refs : List ImageRef) (work_dir : String)
    (files : List (String × ℕ × ℕ)) (embedFails : String → Bool) :
    Except String Doc :=
  match styleMainTitle cfg (applyGlobalStyles cfg doc) document_title with
  | .error e => .error e
  | .ok doc2 =>
    match processParagraphsAndImages cfg (work_dir ++ "/img") files embedFails
        doc2.paragraphs image_refs with
    | .error e => .error e
    | .ok pr =>
      let doc3 := { doc2 with paragraphs := pr.1 }
      let doc4 := { doc3 with tables := processTables doc3.tables }
      let doc5 := processFootnotes cfg doc4
      setupFooters cfg doc5

/-! ## Temporary files and `convert` (filesystem model)

The filesystem is the list of existing paths; `pandocOk` is the oracle
for whether the pandoc subprocess succeeds. -/

/-- Create a file (idempotent, like opening for writing). -/
def addFile (p : String) (fs : List String) : List String :=
  if p ∈ fs then fs else fs ++ [p]

/-- Model of `Path.unlink` guarded by `Path.exists`. -/
def removeFile (p : String) (fs : List String) : List String :=
  fs.filter (fun q => q ≠ p)

/-- The path of the temporary Lua filter script. -/
def luaScriptPath (work_dir : String) : String :=
  work_dir ++ "/adjust_headers.lua"

/-- The path of the temporary Markdown copy. -/
def tempMarkdownPath (work_dir input_name : String) : String :=
  work_dir ++ "/temp_" ++ input_name

/-- Model of `_run_pandoc_conversion`: create the Lua script, run pandoc (which may
fail), and delete the script in a `finally`. -/
def runPandocConversion (work_dir : String) (fs : List String) (pandocOk : Bool) :
    Option String × List String :=
  let lua_path := luaScriptPath work_dir
  let fs1 := addFile lua_path fs
  let result := if pandocOk then none else some "Pandoc conversion failed"
  (result, removeFile lua_path fs1)

/-- Model of `convert`: check the input exists, create the image directory and the
temporary Markdown copy, then run pandoc and post-processing inside a
`try` whose `finally` deletes the temporary Markdown. Returns the error
(if any) and the final filesystem. -/
def convert (cfg : DocumentConfig) (work_dir input_name : String) (content : String)
    (fs : List String) (pandocOk : Bool) (pandocDoc : Doc)
    (files : List (String × ℕ × ℕ)) (embedFails : String → Bool) :
    Option String × List String :=
  let input_path := work_dir ++ "/" ++ input_name
  if input_path ∈ fs then
    let fs1 := addFile (work_dir ++ "/img") fs
    let document_title := extractTitleFromMarkdown content
    let image_refs := extractImageReferences content
    let temp_md := tempMarkdownPath work_dir input_name
    let fs2 := addFile temp_md fs1
    let er := runPandocConversion work_dir fs2 pandocOk
    let er2 : Option String × List String :=
      match er.1 with
      | some e => (some e, er.2)
      | none =>
        match postProcessDocument cfg pandocDoc document_title image_refs work_dir
            files embedFails with
        | .ok _ => (none, er.2)
        | .error e => (some e, er.2)
    (er2.1, removeFile temp_md er2.2)
  else
    (some "Input file not found", fs)

theorem tokenize_nil : tokenize [] = [] := by
  rw [tokenize.eq_def]
  split
  · rename_i alt path r heq
    simp [tryMatch] at heq
  · rfl

theorem tokenize_some {l alt path r : List Char}
    (h : tryMatch l = some (alt, path, r)) :
    tokenize l = .img alt path :: tokenize r := by
  rw [tokenize.eq_def]
  split
  · rename_i alt2 path2 r2 heq
    rw [h] at heq
    simp only [Option.some.injEq, Prod.mk.injEq] at heq
    obtain ⟨h1, h2, h3⟩ := heq
    subst h1; subst h2; subst h3; rfl
  · rename_i heq
    rw [h] at heq
    exact absurd heq (by simp)

theorem tokenize_cons_none {c : Char} {rest : List Char}
    (h : tryMatch (c :: rest) = none) :
    tokenize (c :: rest) = .lit c :: tokenize rest := by
  rw [tokenize.eq_def]
  split
  · rename_i alt path r heq
    rw [h] at heq
    exact absurd heq (by simp)
  · rfl

/-- Fuel-indexed structural copy of `tokenize`, used only to evaluate
`tokenize` on concrete inputs inside kernel-checked proofs. -/
def tokenizeF : Nat → List Char → List MdTok
  | 0, _ => []
  | _ + 1, [] => []
  | fuel + 1, c :: rest =>
    match tryMatch (c :: rest) with
    | some (alt, path, r) => .img alt path :: tokenizeF fuel r
    | none => .lit c :: tokenizeF fuel rest

theorem tokenize_eq_tokenizeF : ∀ (fuel : Nat) (l : List Char),
    l.length < fuel → tokenize l = tokenizeF fuel l := by
  intro fuel
  induction fuel with
  | zero => intro l hl; omega
  | succ n ih =>
    intro l hl
    cases l with
    | nil => rw [tokenize_nil, tokenizeF]
    | cons c rest =>
      cases htm : tryMatch (c :: rest) with
      | some apr =>
        obtain ⟨alt, path, r⟩ := apr
        rw [tokenize_some htm, tokenizeF, htm]
        have hr : r.length < n := by
          have := tryMatch_length htm
          simp only [List.length_cons] at this hl
          omega
        rw [ih r hr]
      | none =>
        rw [tokenize_cons_none htm, tokenizeF, htm]
        have hr : rest.length < n := by simp at hl; omega
        rw [ih rest hr]

/-- Fuel-indexed structural copy of `countSub`, used only for concrete
evaluation. -/
def countSubF (pat : List Char) : Nat → List Char → Nat
  | 0, _ => 0
  | _ + 1, [] => 0
  | fuel + 1, c :: rest =>
    if pat ≠ [] ∧ pat.isPrefixOf (c :: rest) then
      countSubF pat fuel ((c :: rest).drop pat.length) + 1
    else
      countSubF pat fuel rest

theorem countSub_eq_countSubF : ∀ (fuel : Nat) (pat l : List Char),
    l.length < fuel → countSub pat l = countSubF pat fuel l := by
  intro fuel
  induction fuel with
  | zero => intro pat l hl; omega
  | succ n ih =>
    intro pat l hl
    cases l with
    | nil => rw [countSub, countSubF]
    | cons c rest =>
      rw [countSub, countSubF]
      by_cases hc : pat ≠ [] ∧ pat.isPrefixOf (c :: rest)
      · rw [if_pos hc, if_pos hc]
        have hp : 0 < pat.length := List.length_pos.mpr hc.1
        have : ((c :: rest).drop pat.length).length < n := by
          simp only [List.length_drop, List.length_cons]
          simp at hl
          omega
        rw [ih _ _ this]
      · rw [if_neg hc, if_neg hc]
        have : rest.length < n := by simp at hl; omega
        rw [ih _ _ this]

/-- A default style-attribute record for building test documents. -/
def blankStyle : StyleAttrs :=
  { font_name := "Calibri", font_size := 11, bold := false, italic := false,
    color := none, superscript := false, space_before := 0, space_after := 0,
    line_spacing := 1 }

/-- A plain paragraph with the given text and style name. -/
def plainPara (text style_name : String) : Para :=
  { text := text, style_name := style_name, alignment := .unset,
    space_before := none, space_after := none, line_spacing := none,
    pictures := [] }

/-- A document whose style table lacks `Title` while a paragraph's text
equals the document title `"T"`. -/
def docMissingTitle : Doc :=
  { styles := [("Normal", blankStyle)]
    paragraphs := [plainPara "T" "Normal"]
    tables := []
    language := "en"
    page_width := 0
    page_height := 0
    margins_cm := (0, 0, 0, 0)
    footer_odd := none
    footer_even := none }

/-! ## Claim C8: title extraction -/

theorem titleLoop_spec (lines : List String) :
    titleLoop lines =
      match lines.find? (fun l => pyStartsWith "# " l) with
      | none => "Untitled Document"
      | some l => pyStrip (pyDrop 2 l) := by
  induction lines with
  | nil => rw [titleLoop]; rfl
  | cons l ls ih =>
    rw [titleLoop]
    by_cases h : pyStartsWith "# " l
    · rw [if_pos h, List.find?_cons_of_pos _ h]
    · rw [if_neg h, List.find?_cons_of_neg _ (by simpa using h), ih]

/-- C8: if no line of the content begins with `"# "`, title extraction
returns the fixed placeholder `"Untitled Document"`; otherwise it returns
the text after `"# "` of the first such line, stripped of surrounding
whitespace. -/
theorem c8_title_extraction (content : String) :
    ((∀ line ∈ pySplitLines content, ¬ pyStartsWith "# " line) →
      extractTitleFromMarkdown content = "Untitled Document") ∧
    (∀ line : String,
      (pySplitLines content).find? (fun l => pyStartsWith "# " l) = some line →
      extractTitleFromMarkdown content = pyStrip (pyDrop 2 line)) := by
  constructor
  · intro hnone
    rw [extractTitleFromMarkdown, titleLoop_spec]
    have : (pySplitLines content).find? (fun l => pyStartsWith "# " l) = none := by
      rw [List.find?_eq_none]
      intro x hx
      simpa using hnone x hx
    rw [this]
  · intro line hline
    rw [extractTitleFromMarkdown, titleLoop_spec, hline]

theorem c8_title_extraction_witness :
    extractTitleFromMarkdown "plain text\nanother line" = "Untitled Document" ∧
    extractTitleFromMarkdown "intro\n# My Title \n# Other" = "My Title" := by
  constructor
  · exact (c8_title_extraction "plain text\nanother line").1 (by decide)
  · exact Eq.trans
      ((c8_title_extraction "intro\n# My Title \n# Other").2 "# My Title " (by decide))
      (by decide)

/-! ## Claim C3: image resizing -/

/-- C3: a picture wider than `MAX_IMAGE_WIDTH` is resized to exactly that
width, with height `int(MAX_IMAGE_WIDTH * height / width)`; the new
height/width ratio matches the original up to the error of one truncation
to integer; a picture no wider than the maximum is unchanged. -/
theorem c3_resize_max_width (w h : ℕ) :
    (MAX_IMAGE_WIDTH < w →
      (resizeImage w h).1 = MAX_IMAGE_WIDTH ∧
      (resizeImage w h).2 = (⌊(MAX_IMAGE_WIDTH * h : ℚ) / (w : ℚ)⌋).toNat ∧
      ((resizeImage w h).2 : ℚ) / (MAX_IMAGE_WIDTH : ℚ) ≤ (h : ℚ) / (w : ℚ) ∧
      (h : ℚ) / (w : ℚ) < (((resizeImage w h).2 : ℚ) + 1) / (MAX_IMAGE_WIDTH : ℚ)) ∧
    (w ≤ MAX_IMAGE_WIDTH → resizeImage w h = (w, h)) := by
  constructor
  · intro hw
    have hw0 : (0 : ℚ) < (w : ℚ) := by
      have : 0 < w := lt_trans (by norm_num [MAX_IMAGE_WIDTH]) hw
      exact_mod_cast this
    have hM0 : (0 : ℚ) < (MAX_IMAGE_WIDTH : ℚ) := by norm_num [MAX_IMAGE_WIDTH]
    set q : ℚ := (MAX_IMAGE_WIDTH * h : ℚ) / (w : ℚ) with hq
    have hq0 : 0 ≤ q := by positivity
    have hfl0 : 0 ≤ ⌊q⌋ := Int.floor_nonneg.mpr hq0
    have hres : resizeImage w h = (MAX_IMAGE_WIDTH, (⌊q⌋).toNat) := by
      rw [resizeImage, if_pos hw]
    have hcast : (((⌊q⌋).toNat : ℕ) : ℚ) = ((⌊q⌋ : ℤ) : ℚ) := by
      exact_mod_cast congrArg Int.cast (Int.toNat_of_nonneg hfl0)
    have hqdiv : q / (MAX_IMAGE_WIDTH : ℚ) = (h : ℚ) / (w : ℚ) := by
      rw [hq]
      field_simp
      ring
    refine ⟨by rw [hres], by rw [hres], ?_, ?_⟩
    · rw [hres]
      calc (((⌊q⌋).toNat : ℕ) : ℚ) / (MAX_IMAGE_WIDTH : ℚ)
          = ((⌊q⌋ : ℤ) : ℚ) / (MAX_IMAGE_WIDTH : ℚ) := by rw [hcast]
        _ ≤ q / (MAX_IMAGE_WIDTH : ℚ) := (div_le_div_iff_of_pos_right hM0).mpr (Int.floor_le q)
        _ = (h : ℚ) / (w : ℚ) := hqdiv
    · rw [hres]
      calc (h : ℚ) / (w : ℚ) = q / (MAX_IMAGE_WIDTH : ℚ) := hqdiv.symm
        _ < (((⌊q⌋ : ℤ) : ℚ) + 1) / (MAX_IMAGE_WIDTH : ℚ) :=
            (div_lt_div_iff_of_pos_right hM0).mpr (Int.lt_floor_add_one q)
        _ = ((((⌊q⌋).toNat : ℕ) : ℚ) + 1) / (MAX_IMAGE_WIDTH : ℚ) := by rw [hcast]
  · intro hw
    rw [resizeImage, if_neg (not_lt.mpr hw)]

theorem c3_resize_max_width_witness :
    (MAX_IMAGE_WIDTH < 10972800 ∧
      (resizeImage 10972800 200).1 = MAX_IMAGE_WIDTH ∧
      ((resizeImage 10972800 200).2 : ℚ) / (MAX_IMAGE_WIDTH : ℚ) ≤ (200 : ℚ) / (10972800 : ℚ)) ∧
    (1000 ≤ MAX_IMAGE_WIDTH ∧ resizeImage 1000 2000 = (1000, 2000)) := by
  refine ⟨⟨by decide, ?_, ?_⟩, by decide, (c3_resize_max_width 1000 2000).2 (by decide)⟩
  · exact ((c3_resize_max_width 10972800 200).1 (by decide)).1
  · exact ((c3_resize_max_width 10972800 200).1 (by decide)).2.2.1

/-! ## Claim C10: cell borders -/

/-- C10: `_set_cell_borders` leaves a cell with an existing `w:tcBorders`
element unchanged, otherwise appends exactly one `w:tcBorders` element
with single borders on all four sides; applying it twice equals applying
it once. -/
theorem c10_cell_borders_idempotent (cell : Cell) :
    setCellBorders (setCellBorders cell) = setCellBorders cell ∧
    ((cell.tcPr.getD []).any TcChild.isBorders = true → setCellBorders cell = cell) ∧
    ((cell.tcPr.getD []).any TcChild.isBorders = false →
      setCellBorders cell =
        ⟨some ((cell.tcPr.getD []) ++ [TcChild.tcBorders singleBorderEdges])⟩) := by
  obtain ⟨pr⟩ := cell
  by_cases hb : (pr.getD []).any TcChild.isBorders
  · have h1 : setCellBorders ⟨pr⟩ = ⟨some (pr.getD [])⟩ := by
      rw [setCellBorders, if_pos hb]
    have h2 : setCellBorders ⟨some (pr.getD [])⟩ = ⟨some (pr.getD [])⟩ := by
      rw [setCellBorders]
      simp only [Option.getD_some]
      rw [if_pos hb]
    refine ⟨by rw [h1, h2], ?_, by intro hc; exact absurd hb (by simp [hc])⟩
    intro _
    cases pr with
    | none => simp at hb
    | some children => simp only [Option.getD_some] at h1 ⊢; exact h1
  · have h1 : setCellBorders ⟨pr⟩ =
        ⟨some ((pr.getD []) ++ [TcChild.tcBorders singleBorderEdges])⟩ := by
      rw [setCellBorders, if_neg hb]
    have h2 : setCellBorders ⟨some ((pr.getD []) ++ [TcChild.tcBorders singleBorderEdges])⟩ =
        ⟨some ((pr.getD []) ++ [TcChild.tcBorders singleBorderEdges])⟩ := by
      rw [setCellBorders]
      simp only [Option.getD_some]
      rw [if_pos (by simp [List.any_append, TcChild.isBorders])]
    exact ⟨by rw [h1, h2], by intro hc; exact absurd hc (by simpa using hb), fun _ => h1⟩

theorem c10_cell_borders_idempotent_witness :
    (((Cell.mk (some [TcChild.tcBorders []])).tcPr.getD []).any TcChild.isBorders = true ∧
      setCellBorders (Cell.mk (some [TcChild.tcBorders []])) =
        Cell.mk (some [TcChild.tcBorders []])) ∧
    (((Cell.mk none).tcPr.getD []).any TcChild.isBorders = false ∧
      setCellBorders (Cell.mk none) =
        Cell.mk (some [TcChild.tcBorders singleBorderEdges])) := by
  refine ⟨⟨by decide, (c10_cell_borders_idempotent _).2.1 (by decide)⟩,
    by decide, Eq.trans ((c10_cell_borders_idempotent (Cell.mk none)).2.2 (by decide)) rfl⟩

/-! ## Claim C2: configuration validation -/

/-- Success recognizer for `Except`. -/
def isOk {ε α : Type} : Except ε α → Bool
  | .ok _ => true
  | .error _ => false

theorem validateConfig_ok_iff (cfg : DocumentConfig) :
    validateConfig cfg = .ok () ↔
      (0 < cfg.base_font_size ∧
       0 ≤ cfg.margins.1 ∧ 0 ≤ cfg.margins.2.1 ∧ 0 ≤ cfg.margins.2.2.1 ∧
       0 ≤ cfg.margins.2.2.2 ∧
       0 < cfg.line_spacing ∧
       (∀ entry ∈ cfg.heading_colors, validColor entry.2) ∧
       (cfg.footer_text.lookup "odd").isSome ∧
       (cfg.footer_text.lookup "even").isSome) := by
  unfold validateConfig
  constructor
  · intro h
    split_ifs at h with h1 h2 h3 h4 h5
    all_goals try simp only [reduceCtorEq] at h
    push_neg at h2
    exact ⟨by omega, h2.1, h2.2.1, h2.2.2.1, h2.2.2.2, not_le.mp h3, h4, h5.1, h5.2⟩
  · intro hc
    obtain ⟨hfs, hm1, hm2, hm3, hm4, hls, hcol, ho, he⟩ := hc
    rw [if_neg (by omega : ¬ cfg.base_font_size ≤ 0)]
    rw [if_neg (by
      simp only [not_or]
      exact ⟨not_lt.mpr hm1, not_lt.mpr hm2, not_lt.mpr hm3, not_lt.mpr hm4⟩)]
    rw [if_neg (not_le.mpr hls)]
    rw [if_neg (not_not_intro hcol)]
    rw [if_neg (not_not_intro ⟨ho, he⟩)]

/-- C2 (amended): for heading colors and footer text passed as non-empty
dicts, construction succeeds exactly when the font size is positive, all
four margins are non-negative, the line spacing is positive, every
heading color is a 3-tuple of components in `0..255`, and the footer dict
has both the `odd` and `even` keys.  (A `None` or empty dict is replaced
by valid defaults before validation, so such a `footer_text` or
`heading_colors` never causes a failure.) -/
theorem c2_config_validation
    (ps : PaperSize) (fn lang : String) (ct : Bool) (bfs : Int)
    (margins : ℚ × ℚ × ℚ × ℚ) (ls : ℚ) (hcl : List (Int × List Int))
    (ft : List (String × String)) (hhc : hcl ≠ []) (hft : ft ≠ []) :
    isOk (mkDocumentConfig ps (some hcl) (some ft) fn bfs margins ls lang ct) = true ↔
      (0 < bfs ∧ 0 ≤ margins.1 ∧ 0 ≤ margins.2.1 ∧ 0 ≤ margins.2.2.1 ∧
       0 ≤ margins.2.2.2 ∧ 0 < ls ∧ (∀ entry ∈ hcl, validColor entry.2) ∧
       (ft.lookup "odd").isSome ∧ (ft.lookup "even").isSome) := by
  have hred : mkDocumentConfig ps (some hcl) (some ft) fn bfs margins ls lang ct =
      (match validateConfig
          { paper_size := ps, heading_colors := hcl, footer_text := ft,
            font_name := fn, base_font_size := bfs, margins := margins,
            line_spacing := ls, language := lang, center_title := ct } with
        | .ok _ => .ok
            { paper_size := ps, heading_colors := hcl, footer_text := ft,
              font_name := fn, base_font_size := bfs, margins := margins,
              line_spacing := ls, language := lang, center_title := ct }
        | .error e => .error e) := by
    unfold mkDocumentConfig
    simp only [if_neg hhc, if_neg hft]
  rw [hred]
  cases hv : validateConfig
      { paper_size := ps, heading_colors := hcl, footer_text := ft,
        font_name := fn, base_font_size := bfs, margins := margins,
        line_spacing := ls, language := lang, center_title := ct } with
  | ok u =>
    cases u
    exact iff_of_true rfl ((validateConfig_ok_iff _).mp hv)
  | error e =>
    refine iff_of_false (by simp [isOk]) fun hbig => ?_
    have := (validateConfig_ok_iff
      { paper_size := ps, heading_colors := hcl, footer_text := ft,
        font_name := fn, base_font_size := bfs, margins := margins,
        line_spacing := ls, language := lang, center_title := ct }).mpr hbig
    rw [hv] at this
    exact Except.noConfusion this

theorem c2_config_validation_counterexample :
    isOk (mkDocumentConfig .letter none (some []) "Arial" 12 (2, 2, 2, 2) 1
      "en-US" true) = true ∧
    (([] : List (String × String)).lookup "odd").isSome = false := by
  exact ⟨by decide, by decide⟩

theorem c2_config_validation_witness :
    ([(1, [0, 0, 0])] : List (Int × List Int)) ≠ [] ∧
    ([("odd", "x"), ("even", "y")] : List (String × String)) ≠ [] ∧
    isOk (mkDocumentConfig .letter (some [(1, [0, 0, 0])])
      (some [("odd", "x"), ("even", "y")]) "Arial" 12 (2, 2, 2, 2) 1
      "en-US" true) = true := by
  refine ⟨by decide, by decide, ?_⟩
  exact (c2_config_validation .letter "Arial" "en-US" true 12 (2, 2, 2, 2) 1
    [(1, [0, 0, 0])] [("odd", "x"), ("even", "y")] (by decide) (by decide)).mpr
    (by decide)

/-! ## Claim C6: missing or malformed images are non-fatal -/

/-- C6: when the resolved image file does not exist, `_insert_single_image`
returns normally with the paragraph text replaced by
`[Image not found: <alt>]`; when the file exists but embedding raises, it
returns normally with the text replaced by `[Image: <alt>]`. -/
theorem c6_missing_image_nonfatal (para : Para) (alt path orig : String)
    (rest : List ImageRef) (img_dir : String) (files : List (String × ℕ × ℕ))
    (embedFails : String → Bool) :
    (files.lookup (img_dir ++ "/" ++ path) = none →
      insertSingleImage para (⟨alt, path, orig⟩ :: rest) img_dir files embedFails =
        .ok ({ para with text := "[Image not found: " ++ alt ++ "]", pictures := [] },
          rest)) ∧
    (∀ wh : ℕ × ℕ, files.lookup (img_dir ++ "/" ++ path) = some wh →
      embedFails (img_dir ++ "/" ++ path) = true →
      insertSingleImage para (⟨alt, path, orig⟩ :: rest) img_dir files embedFails =
        .ok ({ para with text := "[Image: " ++ alt ++ "]", pictures := [] }, rest)) := by
  constructor
  · intro hnone
    simp only [insertSingleImage, hnone]
  · intro wh hsome hef
    simp only [insertSingleImage, hsome, hef, if_true]

theorem c6_missing_image_nonfatal_witness :
    (([] : List (String × ℕ × ℕ)).lookup ("/w/img" ++ "/" ++ "x.png") = none ∧
      insertSingleImage ⟨"[IMAGE_PLACEHOLDER]", "Normal", .unset, none, none, none, []⟩
        [⟨"a", "x.png", "![a](x.png)"⟩] "/w/img" [] (fun _ => false) =
        .ok (⟨"[Image not found: a]", "Normal", .unset, none, none, none, []⟩, [])) ∧
    ([("/w/img" ++ "/" ++ "x.png", (10, 10))].lookup ("/w/img" ++ "/" ++ "x.png") =
        some (10, 10) ∧
      insertSingleImage ⟨"[IMAGE_PLACEHOLDER]", "Normal", .unset, none, none, none, []⟩
        [⟨"a", "x.png", "![a](x.png)"⟩] "/w/img"
        [("/w/img" ++ "/" ++ "x.png", (10, 10))] (fun _ => true) =
        .ok (⟨"[Image: a]", "Normal", .unset, none, none, none, []⟩, [])) := by
  constructor
  · exact ⟨by decide,
      (c6_missing_image_nonfatal ⟨"[IMAGE_PLACEHOLDER]", "Normal", .unset, none, none, none, []⟩
        "a" "x.png" "![a](x.png)" [] "/w/img" [] (fun _ => false)).1 (by decide)⟩
  · exact ⟨by decide,
      (c6_missing_image_nonfatal ⟨"[IMAGE_PLACEHOLDER]", "Normal", .unset, none, none, none, []⟩
        "a" "x.png" "![a](x.png)" [] "/w/img"
        [("/w/img" ++ "/" ++ "x.png", (10, 10))] (fun _ => true)).2 (10, 10)
        (by decide) (by decide)⟩

/-! ## Claim C4: temporary files removed on all exit paths -/

theorem not_mem_removeFile (p : String) (fs : List String) : p ∉ removeFile p fs := by
  simp [removeFile]

theorem mem_of_mem_removeFile {q p : String} {fs : List String}
    (h : q ∈ removeFile p fs) : q ∈ fs :=
  (List.mem_filter.mp h).1

theorem convert_fs_eq (cfg : DocumentConfig) (work_dir input_name content : String)
    (fs : List String) (pandocOk : Bool) (pandocDoc : Doc)
    (files : List (String × ℕ × ℕ)) (embedFails : String → Bool)
    (hin : (work_dir ++ "/" ++ input_name) ∈ fs) :
    (convert cfg work_dir input_name content fs pandocOk pandocDoc files embedFails).2 =
      removeFile (tempMarkdownPath work_dir input_name)
        (removeFile (luaScriptPath work_dir)
          (addFile (luaScriptPath work_dir)
            (addFile (tempMarkdownPath work_dir input_name)
              (addFile (work_dir ++ "/img") fs)))) := by
  unfold convert runPandocConversion
  rw [if_pos hin]
  by_cases hp : pandocOk
  · simp only [hp, if_true]
    cases hpp : postProcessDocument cfg pandocDoc (extractTitleFromMarkdown content)
        (extractImageReferences content) work_dir files embedFails <;> simp
  · simp [hp]

/-- C4: whenever the input file exists (so the temporary Markdown copy and
the Lua filter script are created), neither temporary file is present in
the filesystem after `convert` returns or raises, on every combination of
pandoc failure and post-processing failure. -/
theorem c4_temp_files_removed (cfg : DocumentConfig)
    (work_dir input_name content : String) (fs : List String) (pandocOk : Bool)
    (pandocDoc : Doc) (files : List (String × ℕ × ℕ)) (embedFails : String → Bool)
    (hin : (work_dir ++ "/" ++ input_name) ∈ fs) :
    tempMarkdownPath work_dir input_name ∉
      (convert cfg work_dir input_name content fs pandocOk pandocDoc files embedFails).2 ∧
    luaScriptPath work_dir ∉
      (convert cfg work_dir input_name content fs pandocOk pandocDoc files embedFails).2 := by
  rw [convert_fs_eq cfg work_dir input_name content fs pandocOk pandocDoc files
    embedFails hin]
  constructor
  · exact not_mem_removeFile _ _
  · intro hmem
    exact not_mem_removeFile (luaScriptPath work_dir) _ (mem_of_mem_removeFile hmem)

theorem c4_temp_files_removed_witness :
    ("/w" ++ "/" ++ "a.md" ∈ ["/w/a.md"]) ∧
    tempMarkdownPath "/w" "a.md" ∉
      (convert defaultConfig "/w" "a.md" "" ["/w/a.md"] false
        ⟨[], [], [], "", 0, 0, (0, 0, 0, 0), none, none⟩ [] (fun _ => false)).2 ∧
    luaScriptPath "/w" ∉
      (convert defaultConfig "/w" "a.md" "" ["/w/a.md"] false
        ⟨[], [], [], "", 0, 0, (0, 0, 0, 0), none, none⟩ [] (fun _ => false)).2 := by
  refine ⟨by decide, ?_⟩
  exact c4_temp_files_removed defaultConfig "/w" "a.md" "" ["/w/a.md"] false
    ⟨[], [], [], "", 0, 0, (0, 0, 0, 0), none, none⟩ [] (fun _ => false) (by decide)

/-! ## Claim C5: missing named styles during post-processing -/

theorem updateStyle_names (doc : Doc) (n : String) (f : StyleAttrs → StyleAttrs) :
    (updateStyle doc n f).styles.map Prod.fst = doc.styles.map Prod.fst := by
  simp only [updateStyle, List.map_map]
  apply List.map_congr_left
  intro a _
  by_cases h : a.1 = n <;> simp [h]

theorem applyStyleConfigurations_names (cfgs : List (String × StyleConfig)) :
    ∀ doc : Doc,
      (applyStyleConfigurations doc cfgs).styles.map Prod.fst =
        doc.styles.map Prod.fst := by
  induction cfgs with
  | nil => intro doc; rfl
  | cons nc rest ih =>
    intro doc
    rw [applyStyleConfigurations, List.foldl_cons]
    cases h : lookupStyle doc nc.1 with
    | none => exact ih doc
    | some s => exact (ih _).trans (updateStyle_names doc nc.1 (applyStyleConfig nc.2))

theorem applyStyleConfigurations_paragraphs (cfgs : List (String × StyleConfig)) :
    ∀ doc : Doc,
      (applyStyleConfigurations doc cfgs).paragraphs = doc.paragraphs := by
  induction cfgs with
  | nil => intro doc; rfl
  | cons nc rest ih =>
    intro doc
    rw [applyStyleConfigurations, List.foldl_cons]
    cases h : lookupStyle doc nc.1 with
    | none => exact ih doc
    | some s => exact ih _

theorem applyGlobalStyles_names (cfg : DocumentConfig) (doc : Doc) :
    (applyGlobalStyles cfg doc).styles.map Prod.fst = doc.styles.map Prod.fst := by
  unfold applyGlobalStyles configureSectionProperties setDocumentLanguage
  exact (applyStyleConfigurations_names _ _).trans (applyStyleConfigurations_names _ _)

theorem applyGlobalStyles_paragraphs (cfg : DocumentConfig) (doc : Doc) :
    (applyGlobalStyles cfg doc).paragraphs = doc.paragraphs := by
  unfold applyGlobalStyles configureSectionProperties setDocumentLanguage
  exact (applyStyleConfigurations_paragraphs _ _).trans
    (applyStyleConfigurations_paragraphs _ _)

theorem processFootnotes_names (cfg : DocumentConfig) (doc : Doc) :
    (processFootnotes cfg doc).styles.map Prod.fst = doc.styles.map Prod.fst := by
  unfold processFootnotes
  split
  · rfl
  · dsimp only
    split
    · exact updateStyle_names _ _ _
    · exact (updateStyle_names _ _ _).trans (updateStyle_names _ _ _)

theorem lookup_isSome_of_keys_eq {β γ : Type} :
    ∀ {l1 : List (String × β)} {l2 : List (String × γ)},
      l1.map Prod.fst = l2.map Prod.fst → ∀ k : String,
      (l1.lookup k).isSome = (l2.lookup k).isSome := by
  intro l1
  induction l1 with
  | nil =>
    intro l2 h k
    have h2 : l2 = [] := List.map_eq_nil_iff.mp h.symm
    subst h2
    rfl
  | cons a t ih =>
    intro l2 h k
    obtain ⟨a1, a2⟩ := a
    cases l2 with
    | nil => simp at h
    | cons b t2 =>
      obtain ⟨b1, b2⟩ := b
      simp only [List.map_cons, List.cons.injEq] at h
      rw [List.lookup, List.lookup, h.1]
      cases hbk : k == b1
      · exact ih h.2 k
      · rfl

theorem styleMainTitleLoop_ok (cfg : DocumentConfig)
    (styles : List (String × StyleAttrs)) (title : String) :
    ∀ paras : List Para,
      ((styles.lookup "Title").isSome = true ∨ ∀ p ∈ paras, p.text ≠ title) →
      ∃ ps, styleMainTitleLoop cfg styles title paras = .ok ps := by
  intro paras
  induction paras with
  | nil => intro _; exact ⟨[], rfl⟩
  | cons p rest ih =>
    intro h
    rw [styleMainTitleLoop]
    by_cases hp : p.text = title
    · rw [if_pos hp]
      rcases h with h | h
      · obtain ⟨ts, hts⟩ := Option.isSome_iff_exists.mp h
        rw [hts]
        exact ⟨_, rfl⟩
      · exact absurd hp (h p (by simp))
    · rw [if_neg hp]
      have h2 : (styles.lookup "Title").isSome = true ∨ ∀ q ∈ rest, q.text ≠ title := by
        rcases h with h | h
        · exact Or.inl h
        · exact Or.inr fun q hq => h q (List.mem_cons_of_mem p hq)
      obtain ⟨ps, hps⟩ := ih h2
      rw [hps]
      exact ⟨_, rfl⟩

theorem insertSingleImage_ok (para : Para) (r : ImageRef) (rest : List ImageRef)
    (img_dir : String) (files : List (String × ℕ × ℕ)) (embedFails : String → Bool) :
    ∃ p', insertSingleImage para (r :: rest) img_dir files embedFails = .ok (p', rest) := by
  cases hl : files.lookup (img_dir ++ "/" ++ r.path) with
  | none =>
    have hgoal : insertSingleImage para (r :: rest) img_dir files embedFails =
        .ok ({ para with text := "[Image not found: " ++ r.alt_text ++ "]", pictures := [] },
          rest) := by
      simp only [insertSingleImage, hl]
    exact ⟨_, hgoal⟩
  | some wh =>
    by_cases hef : embedFails (img_dir ++ "/" ++ r.path) = true
    · have hgoal : insertSingleImage para (r :: rest) img_dir files embedFails =
          .ok ({ para with text := "[Image: " ++ r.alt_text ++ "]", pictures := [] },
            rest) := by
        simp only [insertSingleImage, hl, hef, if_true]
      exact ⟨_, hgoal⟩
    · have hgoal : insertSingleImage para (r :: rest) img_dir files embedFails =
          .ok ({ para with text := "", pictures := [resizeImage wh.1 wh.2], alignment := .center },
            rest) := by
        simp only [insertSingleImage, hl]
        rw [if_neg hef]
      exact ⟨_, hgoal⟩

theorem processParagraphsAndImages_ok (cfg : DocumentConfig) (img_dir : String)
    (files : List (String × ℕ × ℕ)) (embedFails : String → Bool) :
    ∀ (paras : List Para) (refs : List ImageRef),
      ∃ ps, processParagraphsAndImages cfg img_dir files embedFails paras refs =
        .ok (ps, refs.drop (paras.countP fun p => hasMarker p)) := by
  intro paras
  induction paras with
  | nil =>
    intro refs
    exact ⟨[], by simp [processParagraphsAndImages]⟩
  | cons para rest ih =>
    intro refs
    by_cases hm : hasMarker para ∧ refs ≠ []
    · obtain ⟨r, rs, hr⟩ : ∃ r rs, refs = r :: rs := by
        cases refs with
        | nil => exact absurd rfl hm.2
        | cons r rs => exact ⟨r, rs, rfl⟩
      subst hr
      obtain ⟨p', hins⟩ := insertSingleImage_ok para r rs img_dir files embedFails
      obtain ⟨ps, hps⟩ := ih rs
      have hc : ((para :: rest).countP fun p => hasMarker p) =
          (rest.countP fun p => hasMarker p) + 1 := by
        rw [List.countP_cons]
        simp [hm.1]
      simp only [processParagraphsAndImages, if_pos hm, hins, hps, hc,
        List.drop_succ_cons]
      exact ⟨p' :: ps, rfl⟩
    · obtain ⟨ps, hps⟩ := ih refs
      rcases not_and_or.mp hm with hnm | hrefs
      · have hc : ((para :: rest).countP fun p => hasMarker p) =
            (rest.countP fun p => hasMarker p) := by
          rw [List.countP_cons]
          simp [hnm]
        simp only [processParagraphsAndImages, if_neg hm, hps, hc]
        exact ⟨_, rfl⟩
      · have hr : refs = [] := not_not.mp hrefs
        subst hr
        simp only [processParagraphsAndImages, if_neg hm, hps, List.drop_nil]
        exact ⟨_, rfl⟩

/-- C5 (amended): every style lookup of post-processing except the
`Title` lookup of `_style_main_title` is wrapped in `try/except KeyError`;
so when `Title` is present, or no paragraph matches the document title,
post-processing completes without raising for EVERY set of missing styles
(the missing style is skipped and no style is created or removed).  A
missing `Title` style with a title paragraph present does raise. -/
theorem c5_missing_style_nonfatal (cfg : DocumentConfig) (doc : Doc) (title : String)
    (refs : List ImageRef) (work_dir : String) (files : List (String × ℕ × ℕ))
    (embedFails : String → Bool)
    (hodd : (cfg.footer_text.lookup "odd").isSome = true)
    (heven : (cfg.footer_text.lookup "even").isSome = true)
    (htitle : (doc.styles.lookup "Title").isSome = true ∨
      ∀ p ∈ doc.paragraphs, p.text ≠ title) :
    ∃ doc', postProcessDocument cfg doc title refs work_dir files embedFails = .ok doc' ∧
      doc'.styles.map Prod.fst = doc.styles.map Prod.fst := by
  have hnames1 : (applyGlobalStyles cfg doc).styles.map Prod.fst =
      doc.styles.map Prod.fst := applyGlobalStyles_names cfg doc
  have hparas1 : (applyGlobalStyles cfg doc).paragraphs = doc.paragraphs :=
    applyGlobalStyles_paragraphs cfg doc
  have htitle1 : ((applyGlobalStyles cfg doc).styles.lookup "Title").isSome = true ∨
      ∀ p ∈ (applyGlobalStyles cfg doc).paragraphs, p.text ≠ title := by
    rcases htitle with h | h
    · exact Or.inl ((lookup_isSome_of_keys_eq hnames1 "Title").trans h)
    · rw [hparas1]; exact Or.inr h
  obtain ⟨ps2, hps2⟩ := styleMainTitleLoop_ok cfg (applyGlobalStyles cfg doc).styles
    title (applyGlobalStyles cfg doc).paragraphs htitle1
  obtain ⟨ps3, hps3⟩ := processParagraphsAndImages_ok cfg (work_dir ++ "/img") files
    embedFails ps2 refs
  obtain ⟨o, ho⟩ := Option.isSome_iff_exists.mp hodd
  obtain ⟨e, he⟩ := Option.isSome_iff_exists.mp heven
  unfold postProcessDocument styleMainTitle
  simp only [hps2, hps3, setupFooters, ho, he]
  refine ⟨_, rfl, ?_⟩
  calc ((processFootnotes cfg
        { applyGlobalStyles cfg doc with
          paragraphs := ps3
          tables := processTables (applyGlobalStyles cfg doc).tables }).styles.map
        Prod.fst)
      = ({ applyGlobalStyles cfg doc with
          paragraphs := ps3
          tables := processTables (applyGlobalStyles cfg doc).tables }).styles.map
        Prod.fst := processFootnotes_names cfg _
    _ = (applyGlobalStyles cfg doc).styles.map Prod.fst := rfl
    _ = doc.styles.map Prod.fst := hnames1

theorem c5_missing_style_nonfatal_counterexample :
    docMissingTitle.styles.lookup "Title" = none ∧
    (∃ p ∈ docMissingTitle.paragraphs, p.text = "T") ∧
    isOk (postProcessDocument defaultConfig docMissingTitle "T" [] "/w" []
      (fun _ => false)) = false := by
  exact ⟨by decide, by decide, by decide⟩

theorem c5_missing_style_nonfatal_witness :
    ((defaultConfig.footer_text.lookup "odd").isSome = true) ∧
    ((defaultConfig.footer_text.lookup "even").isSome = true) ∧
    ((docMissingTitle.styles.lookup "Title").isSome = true ∨
      ∀ p ∈ docMissingTitle.paragraphs, p.text ≠ "X") ∧
    ∃ doc', postProcessDocument defaultConfig docMissingTitle "X" [] "/w" []
        (fun _ => false) = .ok doc' ∧
      doc'.styles.map Prod.fst = docMissingTitle.styles.map Prod.fst := by
  refine ⟨by decide, by decide, Or.inr (by decide), ?_⟩
  exact c5_missing_style_nonfatal defaultConfig docMissingTitle "X" [] "/w" []
    (fun _ => false) (by decide) (by decide) (Or.inr (by decide))

/-! ## Claim C9: `img/` prefix stripping and resolution -/

theorem dropTrailingWs_img_append (rest : List Char) :
    dropTrailingWs ("img/".data ++ rest) = "img/".data ++ dropTrailingWs rest := by
  unfold dropTrailingWs
  rw [List.reverse_append, List.dropWhile_append]
  by_cases he : (rest.reverse.dropWhile pyWhitespace).isEmpty
  · rw [if_pos he]
    rw [List.isEmpty_iff.mp he]
    have : "img/".data.reverse.dropWhile pyWhitespace = "img/".data.reverse := by decide
    rw [this]
    simp
  · rw [if_neg he]
    rw [List.reverse_append]
    simp

theorem stripChars_of_img {l : List Char}
    (h : "img/".data.isPrefixOf l = true) :
    stripChars l = "img/".data ++ dropTrailingWs (l.drop 4) := by
  obtain ⟨rest, hrest⟩ := List.isPrefixOf_iff_prefix.mp h
  subst hrest
  have hdw : ("img/".data ++ rest).dropWhile pyWhitespace = "img/".data ++ rest := by
    rw [show ("img/".data ++ rest) = 'i' :: ('m' :: ('g' :: ('/' :: rest))) from rfl]
    rw [List.dropWhile_cons_of_neg (by decide)]
  rw [stripChars, hdw, show ("img/".data ++ rest).drop 4 = rest from by simp,
    dropTrailingWs_img_append]

/-- C9: a stored image path that starts with `img/` has the prefix
removed (the stored path is the stripped path minus its first four
characters); a reference written `![a](img/x.png)` extracts to exactly the
same stored record as `![a](x.png)`; and insertion resolves every
reference by joining the working directory's `img` subdirectory with the
stored path. -/
theorem c9_img_prefix_resolution :
    (∀ p : String, "img/".data.isPrefixOf p.data = true →
      normPath p = ⟨(stripChars p.data).drop 4⟩) ∧
    extractImageReferences "![a](img/x.png)" = extractImageReferences "![a](x.png)" ∧
    (∀ (work_dir : String) (r : ImageRef) (rest : List ImageRef) (para : Para)
      (files : List (String × ℕ × ℕ)) (embedFails : String → Bool) (wh : ℕ × ℕ),
      files.lookup (work_dir ++ "/img" ++ "/" ++ r.path) = some wh →
      embedFails (work_dir ++ "/img" ++ "/" ++ r.path) = false →
      insertSingleImage para (r :: rest) (work_dir ++ "/img") files embedFails =
        .ok ({ para with text := "", pictures := [resizeImage wh.1 wh.2], alignment := .center }, rest)) := by
  refine ⟨?_, ?_, ?_⟩
  · intro p hp
    have hs : "img/".data.isPrefixOf (stripChars p.data) = true := by
      rw [stripChars_of_img hp]
      exact List.isPrefixOf_iff_prefix.mpr ⟨_, rfl⟩
    rw [normPath]
    simp only [hs, if_true]
  · simp only [extractImageReferences, findallImages]
    rw [tokenize_eq_tokenizeF 20 _ (by decide), tokenize_eq_tokenizeF 20 _ (by decide)]
    decide
  · intro work_dir r rest para files embedFails wh hl hef
    simp only [insertSingleImage, hl, hef]
    rw [if_neg (by simp)]

theorem c9_img_prefix_resolution_witness :
    ("img/".data.isPrefixOf "img/x.png ".data = true ∧
      normPath "img/x.png " = "x.png") ∧
    ([("/w" ++ "/img" ++ "/" ++ "x.png", ((10 : ℕ), (10 : ℕ)))].lookup
        ("/w" ++ "/img" ++ "/" ++ "x.png") = some (10, 10) ∧
      insertSingleImage (plainPara "[IMAGE_PLACEHOLDER]" "Normal")
        [⟨"a", "x.png", "![a](x.png)"⟩] ("/w" ++ "/img")
        [("/w" ++ "/img" ++ "/" ++ "x.png", (10, 10))] (fun _ => false) =
        .ok ({ plainPara "[IMAGE_PLACEHOLDER]" "Normal" with text := "", pictures := [resizeImage 10 10], alignment := .center }, [])) := by
  constructor
  · refine ⟨by decide, ?_⟩
    exact Eq.trans (c9_img_prefix_resolution.1 "img/x.png " (by decide)) (by decide)
  · refine ⟨by decide, ?_⟩
    exact c9_img_prefix_resolution.2.2 "/w" ⟨"a", "x.png", "![a](x.png)"⟩ []
      (plainPara "[IMAGE_PLACEHOLDER]" "Normal")
      [("/w" ++ "/img" ++ "/" ++ "x.png", (10, 10))] (fun _ => false) (10, 10)
      (by decide) rfl

/-! ## Claims C7 and C1: the scanner decomposition -/

theorem joinRender_cons (f : MdTok → List Char) (t : MdTok) (ts : List MdTok) :
    joinRender f (t :: ts) = f t ++ joinRender f ts := by
  simp [joinRender]

theorem joinRender_nil (f : MdTok → List Char) : joinRender f [] = [] := rfl

/-- The scanner is lossless: rendering every token back to its source
text reproduces the input. -/
theorem tokenize_reconstruct : ∀ l : List Char,
    joinRender renderOrig (tokenize l) = l := by
  have H : ∀ (n : Nat) (l : List Char), l.length < n →
      joinRender renderOrig (tokenize l) = l := by
    intro n
    induction n with
    | zero => intro l hl; omega
    | succ m ih =>
      intro l hl
      cases htm : tryMatch l with
      | some apr =>
        obtain ⟨alt, path, r⟩ := apr
        rw [tokenize_some htm, joinRender_cons]
        have hr : r.length < m := by
          have := tryMatch_length htm
          omega
        rw [ih r hr, tryMatch_eq htm]
        simp [renderOrig]
      | none =>
        cases l with
        | nil => rw [tokenize_nil, joinRender_nil]
        | cons c rest =>
          rw [tokenize_cons_none htm, joinRender_cons]
          have hr : rest.length < m := by
            simp only [List.length_cons] at hl
            omega
          rw [ih rest hr]
          rfl
  intro l
  exact H (l.length + 1) l (by omega)

theorem altJoin_cons_head (c : Char) (s : List Char) (ss ms : List (List Char)) :
    altJoin ((c :: s) :: ss) ms = c :: altJoin (s :: ss) ms := by
  cases ms with
  | nil => simp [altJoin]
  | cons m ms2 => simp [altJoin]

/-- Every token list splits the rendered text into literal segments
interleaved with the matches: the original text is the segments with the
matched substrings in the gaps, and the substituted text is the same
segments with one placeholder per match in the gaps. -/
theorem toks_decompose (toks : List MdTok) :
    ∃ segs : List (List Char),
      segs.length = (toks.filterMap imgOrig).length + 1 ∧
      joinRender renderOrig toks = altJoin segs (toks.filterMap imgOrig) ∧
      joinRender renderSub toks =
        altJoin segs (List.replicate (toks.filterMap imgOrig).length markerChars) := by
  induction toks with
  | nil => exact ⟨[[]], by simp, by simp [joinRender_nil, altJoin], by
      simp [joinRender_nil, altJoin]⟩
  | cons t ts ih =>
    obtain ⟨segs, hlen, ho, hs⟩ := ih
    cases t with
    | lit c =>
      cases segs with
      | nil => simp at hlen
      | cons s ss =>
        refine ⟨(c :: s) :: ss, by simpa using hlen, ?_, ?_⟩
        · rw [joinRender_cons]
          simp only [List.filterMap_cons_none (by rfl : imgOrig (.lit c) = none)]
          rw [altJoin_cons_head, ← ho]
          rfl
        · rw [joinRender_cons]
          simp only [List.filterMap_cons_none (by rfl : imgOrig (.lit c) = none)]
          rw [altJoin_cons_head, ← hs]
          rfl
    | img alt path =>
      refine ⟨[] :: segs, ?_, ?_, ?_⟩
      · simp only [List.filterMap_cons_some (by rfl :
          imgOrig (.img alt path) = some (renderOrig (.img alt path)))]
        simpa using hlen
      · rw [joinRender_cons]
        simp only [List.filterMap_cons_some (by rfl :
          imgOrig (.img alt path) = some (renderOrig (.img alt path)))]
        rw [altJoin, ho]
        rfl
      · rw [joinRender_cons]
        simp only [List.filterMap_cons_some (by rfl :
          imgOrig (.img alt path) = some (renderOrig (.img alt path)))]
        rw [List.length_cons, List.replicate_succ, altJoin, hs]
        rfl

theorem string_append_data (s t : String) : (s ++ t).data = s.data ++ t.data := rfl

theorem rebuilt_data (alt path : List Char) :
    ("![" ++ (⟨alt⟩ : String) ++ "](" ++ (⟨path⟩ : String) ++ ")").data =
      renderOrig (.img alt path) := by
  simp only [string_append_data]
  rw [renderOrig]
  simp only [List.append_assoc]
  rfl

/-- The `findall` groups rebuilt as `![alt](path)` are exactly the
original matched substrings of the scanner. -/
theorem findall_map_eq_imgOrig : ∀ toks : List MdTok,
    ((toks.filterMap fun t =>
        match t with
        | .img alt path => some ((⟨alt⟩ : String), (⟨path⟩ : String))
        | .lit _ => none).map
      (fun ap => ("![" ++ ap.1 ++ "](" ++ ap.2 ++ ")").data)) =
      toks.filterMap imgOrig := by
  intro toks
  induction toks with
  | nil => rfl
  | cons t ts ih =>
    cases t with
    | lit c =>
      simpa using ih
    | img alt path =>
      have hstep : (List.filterMap (fun t =>
          match t with
          | MdTok.img alt path => some ((⟨alt⟩ : String), (⟨path⟩ : String))
          | MdTok.lit _ => none) (MdTok.img alt path :: ts)) =
          ((⟨alt⟩ : String), (⟨path⟩ : String)) :: List.filterMap (fun t =>
          match t with
          | MdTok.img alt path => some ((⟨alt⟩ : String), (⟨path⟩ : String))
          | MdTok.lit _ => none) ts := rfl
      rw [hstep, List.map_cons, ih, rebuilt_data]
      rfl

theorem renderOrig_infix {t : MdTok} : ∀ {toks : List MdTok}, t ∈ toks →
    renderOrig t <:+: joinRender renderOrig toks := by
  intro toks
  induction toks with
  | nil => intro h; cases h
  | cons x xs ih =>
    intro h
    rw [joinRender_cons]
    rcases List.mem_cons.mp h with h1 | h2
    · subst h1
      exact (List.prefix_append _ _).isInfix
    · exact (ih h2).trans (List.suffix_append _ _).isInfix

/-- C7 (amended): each stored record holds the match's alt text, the
NORMALIZED path (stripped, `img/` prefix removed), and a markup string
rebuilt from the alt text and the normalized path — not the source markup
verbatim; the source markup `![alt](rawpath)` does occur in the document
for every match. -/
theorem c7_image_record (content : String) :
    extractImageReferences content = (findallImages content).map (fun ap =>
      { alt_text := ap.1, path := normPath ap.2,
        original_markdown := "![" ++ ap.1 ++ "](" ++ normPath ap.2 ++ ")" }) ∧
    (∀ ap ∈ findallImages content,
      ("![" ++ ap.1 ++ "](" ++ ap.2 ++ ")").data <:+: content.data) := by
  constructor
  · rfl
  · intro ap hap
    obtain ⟨t, ht, hft⟩ := List.mem_filterMap.mp hap
    cases t with
    | lit c => simp at hft
    | img alt path =>
      have hap2 : ap = ((⟨alt⟩ : String), (⟨path⟩ : String)) := by
        simpa using hft.symm
      subst hap2
      have hinf := renderOrig_infix ht
      rw [tokenize_reconstruct content.data] at hinf
      rw [show (("![" ++ (⟨alt⟩ : String) ++ "](" ++ (⟨path⟩ : String) ++ ")").data) =
        renderOrig (.img alt path) from rebuilt_data alt path]
      exact hinf

theorem c7_image_record_counterexample :
    extractImageReferences "![a](img/x.png)" =
      [{ alt_text := "a", path := "x.png", original_markdown := "![a](x.png)" }] ∧
    ¬ ("![a](x.png)".data <:+: "![a](img/x.png)".data) := by
  constructor
  · simp only [extractImageReferences, findallImages,
      tokenize_eq_tokenizeF 20 "![a](img/x.png)".data (by decide)]
    decide
  · decide

theorem c7_image_record_witness :
    (("a", "img/x.png") ∈ findallImages "![a](img/x.png)") ∧
    ("![" ++ "a" ++ "](" ++ "img/x.png" ++ ")").data <:+: "![a](img/x.png)".data := by
  constructor
  · simp only [findallImages, tokenize_eq_tokenizeF 20 "![a](img/x.png)".data (by decide)]
    decide
  · exact (c7_image_record "![a](img/x.png)").2 ("a", "img/x.png") (by
      simp only [findallImages, tokenize_eq_tokenizeF 20 "![a](img/x.png)".data (by decide)]
      decide)

/-- C1 (amended): the substituted content is the unmatched text with
exactly one `[IMAGE_PLACEHOLDER]` in place of each of the N matches (so
exactly N markers are INSERTED; marker text already present in the source
is preserved and adds to the total occurrence count); the extracted list
has length N in document order; insertion pops references from the front
(FIFO), and paragraph processing completes without raising for any
combination of placeholder and reference counts, consuming
`min(#marker paragraphs, #refs)` references in order. -/
theorem c1_placeholder_substitution (content : String) :
    (∃ segs : List (List Char),
      segs.length = (findallImages content).length + 1 ∧
      content.data = altJoin segs ((findallImages content).map
        (fun ap => ("![" ++ ap.1 ++ "](" ++ ap.2 ++ ")").data)) ∧
      (removeImageReferences content).data =
        altJoin segs (List.replicate (findallImages content).length markerChars)) ∧
    (extractImageReferences content).length = (findallImages content).length ∧
    (∀ (para : Para) (r : ImageRef) (rest : List ImageRef) (img_dir : String)
      (files : List (String × ℕ × ℕ)) (embedFails : String → Bool),
      ∃ p', insertSingleImage para (r :: rest) img_dir files embedFails =
        .ok (p', rest)) ∧
    (∀ (cfg : DocumentConfig) (img_dir : String) (files : List (String × ℕ × ℕ))
      (embedFails : String → Bool) (paras : List Para) (refs : List ImageRef),
      ∃ ps, processParagraphsAndImages cfg img_dir files embedFails paras refs =
        .ok (ps, refs.drop (paras.countP fun p => hasMarker p))) := by
  refine ⟨?_, by simp [extractImageReferences], insertSingleImage_ok,
    processParagraphsAndImages_ok⟩
  obtain ⟨segs, hlen, ho, hs⟩ := toks_decompose (tokenize content.data)
  have hbridge := findall_map_eq_imgOrig (tokenize content.data)
  have hN : (findallImages content).length =
      ((tokenize content.data).filterMap imgOrig).length := by
    simp only [findallImages]
    rw [← hbridge, List.length_map]
  refine ⟨segs, ?_, ?_, ?_⟩
  · rw [hN]
    exact hlen
  · rw [show (findallImages content).map
        (fun ap => ("![" ++ ap.1 ++ "](" ++ ap.2 ++ ")").data) =
        (tokenize content.data).filterMap imgOrig from hbridge]
    rw [← ho, tokenize_reconstruct]
  · rw [hN]
    exact hs

theorem c1_placeholder_substitution_counterexample :
    findallImages "[IMAGE_PLACEHOLDER]" = [] ∧
    removeImageReferences "[IMAGE_PLACEHOLDER]" = "[IMAGE_PLACEHOLDER]" ∧
    countSub markerChars (removeImageReferences "[IMAGE_PLACEHOLDER]").data = 1 := by
  have hb := tokenize_eq_tokenizeF 25 "[IMAGE_PLACEHOLDER]".data (by decide)
  have h2 : removeImageReferences "[IMAGE_PLACEHOLDER]" = "[IMAGE_PLACEHOLDER]" := by
    simp only [removeImageReferences, hb]
    decide
  refine ⟨?_, h2, ?_⟩
  · simp only [findallImages, hb]
    decide
  · rw [h2, countSub_eq_countSubF 25 _ _ (by decide)]
    decide

end Word
